import Mathlib

/-!
Verification of the triangulation-based interpolation/differentiation engine
described by the repository specification.  The repository's notebooks only
invoke the engine (`interpolate`, `gradient_lonlat`, `gradient_xyz`) through a
narrow interface; the engine itself is not part of the source tree, so every
definition below is modelled from the specification's description of the
engine's data model, components and contracts.  Coordinates and field values
are exact rationals; possibly non-finite query coordinates are `Option ℚ`
(with `none` standing for a NaN/Inf input).
-/

namespace Viep

/-- Modelled from the spec: a planar coordinate, a pair `(x, y)` (spec §3,
"Vertex ... a 2-tuple (x, y) for planar domains"). -/
abbrev Pt : Type := ℚ × ℚ

/-- Twice the signed area of the triangle `(a, b, c)`; the basic orientation
test used by containment, visibility and degeneracy checks. -/
def cross (a b c : Pt) : ℚ :=
  (b.1 - a.1) * (c.2 - a.2) - (b.2 - a.2) * (c.1 - a.1)

/-- Closed-triangle containment: the triangle is non-degenerate and `p` lies
weakly on the same side of all three (cyclically ordered) edges, for either
orientation of the triangle. -/
def inTri (a b c p : Pt) : Bool :=
  decide (cross a b c ≠ 0) &&
    ((decide (0 ≤ cross a b p) && decide (0 ≤ cross b c p) && decide (0 ≤ cross c a p)) ||
     (decide (cross a b p ≤ 0) && decide (cross b c p ≤ 0) && decide (cross c a p ≤ 0)))

/-- Squared Euclidean distance between two planar points. -/
def distSq (p q : Pt) : ℚ :=
  (p.1 - q.1) * (p.1 - q.1) + (p.2 - q.2) * (p.2 - q.2)

/-- Modelled from the spec: the Point Set & Triangulation component (spec §2,
§3) — vertex coordinates plus the simplices array of ordered vertex-index
triples.  Adjacency is recovered from the simplices by search. -/
structure Triangulation where
  points : List Pt
  simplices : List (Nat × Nat × Nat)
deriving DecidableEq, Repr

namespace Triangulation

/-- Coordinate of vertex `i` (out-of-range indices read the origin; a
well-formed triangulation never uses them). -/
def coord (tri : Triangulation) (i : Nat) : Pt :=
  tri.points.getD i (0, 0)

/-- The three vertex coordinates of a simplex. -/
def verts (tri : Triangulation) (s : Nat × Nat × Nat) : Pt × Pt × Pt :=
  (tri.coord s.1, tri.coord s.2.1, tri.coord s.2.2)

/-- Containment of a planar point in a given simplex of the triangulation. -/
def memTri (tri : Triangulation) (s : Nat × Nat × Nat) (p : Pt) : Bool :=
  inTri (tri.coord s.1) (tri.coord s.2.1) (tri.coord s.2.2) p

/-- Modelled from the spec: the exposed `containing_triangle(point)` topology
query (spec §4.1) — the first simplex whose closed region contains the point,
if any. -/
def containingTriangle (tri : Triangulation) (p : Pt) : Option (Nat × Nat × Nat) :=
  tri.simplices.find? (fun s => tri.memTri s p)

/-- An undirected edge, normalised so the smaller index comes first. -/
def normEdge (e : Nat × Nat) : Nat × Nat :=
  if e.1 ≤ e.2 then e else (e.2, e.1)

/-- The three (normalised) edges of a simplex. -/
def simplexEdges (s : Nat × Nat × Nat) : List (Nat × Nat) :=
  [normEdge (s.1, s.2.1), normEdge (s.2.1, s.2.2), normEdge (s.2.2, s.1)]

/-- All edges of the triangulation, with multiplicity one per incident
triangle. -/
def allEdges (tri : Triangulation) : List (Nat × Nat) :=
  (tri.simplices.map simplexEdges).flatten

/-- Modelled from the spec: the hull boundary (spec §3) — the edges with
exactly one incident triangle (planar case). -/
def hullEdges (tri : Triangulation) : List (Nat × Nat) :=
  (tri.allEdges.filter (fun e => tri.allEdges.count e = 1)).dedup

/-- Squared distance from a point to the closed segment `[a, b]`, computed by
clamping the projection parameter to `[0, 1]`. -/
def distSqToSeg (p a b : Pt) : ℚ :=
  let len2 := distSq a b
  if len2 = 0 then distSq p a
  else
    let t := ((p.1 - a.1) * (b.1 - a.1) + (p.2 - a.2) * (b.2 - a.2)) / len2
    let t' := max 0 (min 1 t)
    distSq p (a.1 + t' * (b.1 - a.1), a.2 + t' * (b.2 - a.2))

/-- Squared distance from a point to a (vertex-index) edge. -/
def distSqToEdge (tri : Triangulation) (p : Pt) (e : Nat × Nat) : ℚ :=
  distSqToSeg p (tri.coord e.1) (tri.coord e.2)

/-- Modelled from the spec: the nearest boundary edge to a query point
(spec §4.2, the datum returned for a query outside the hull); `none` when the
triangulation has no boundary edges. -/
def nearestBoundaryEdge (tri : Triangulation) (p : Pt) : Option (Nat × Nat) :=
  match tri.hullEdges with
  | [] => none
  | e :: es =>
      some (es.foldl
        (fun best e' => if tri.distSqToEdge p e' < tri.distSqToEdge p best then e' else best) e)

end Triangulation

/-- Modelled from the spec: the per-query status (spec §3, "status ∈
\x7bINTERPOLATED, EXTRAPOLATED, INVALID\x7d"). -/
inductive Status where
  | INTERPOLATED
  | EXTRAPOLATED
  | INVALID
deriving DecidableEq, Repr

/-- A query coordinate component as supplied by a caller: `none` models a
non-finite (NaN/Inf) floating-point input. -/
abbrev FCoord : Type := Option ℚ

/-- Modelled from the spec: the Status Classifier contract (spec §4.5) —
`INTERPOLATED` when a containing triangle is found, `EXTRAPOLATED` when the
point is outside the hull but a nearest boundary edge exists, `INVALID` when
the coordinate is non-finite, the triangulation has no triangles, or no
boundary edge could be identified. -/
def pointStatus (tri : Triangulation) (q : FCoord × FCoord) : Status :=
  match q with
  | (some x, some y) =>
      if tri.simplices.isEmpty then .INVALID
      else
        match tri.containingTriangle (x, y) with
        | some _ => .INTERPOLATED
        | none =>
            match tri.nearestBoundaryEdge (x, y) with
            | some _ => .EXTRAPOLATED
            | none => .INVALID
  | _ => .INVALID

/-- Vertices sharing a simplex with `v` (the immediate neighbour ring used by
the gradient estimator, spec §4.3). -/
def Triangulation.neighborRing (tri : Triangulation) (v : Nat) : List Nat :=
  (((tri.simplices.filter (fun s => s.1 == v || s.2.1 == v || s.2.2 == v)).map
      (fun s => [s.1, s.2.1, s.2.2])).flatten.filter (fun w => w != v)).dedup

/-- Accumulator for the weighted least-squares normal equations of the
gradient fit. -/
structure LSQAcc where
  sxx : ℚ
  sxy : ℚ
  syy : ℚ
  sxz : ℚ
  syz : ℚ
deriving Repr

/-- Modelled from the spec: the Gradient Estimator (spec §4.3) — a local
weighted least-squares fit of a plane to the field differences over the
vertex's immediate neighbour ring (weights inverse squared distance).  A
degenerate ring (singular normal equations) yields the zero vector and the
`false` reliability flag (the spec's `UNRELIABLE_GRADIENT` warning). -/
def Triangulation.nodalGradient (tri : Triangulation) (z : List ℚ) (v : Nat) :
    (ℚ × ℚ) × Bool :=
  let pv := tri.coord v
  let zv := z.getD v 0
  let acc := (tri.neighborRing v).foldl
    (fun (a : LSQAcc) w =>
      let pw := tri.coord w
      let dx := pw.1 - pv.1
      let dy := pw.2 - pv.2
      let dz := z.getD w 0 - zv
      let q := distSq pw pv
      let wt := if q = 0 then 0 else 1 / q
      ⟨a.sxx + wt * dx * dx, a.sxy + wt * dx * dy, a.syy + wt * dy * dy,
       a.sxz + wt * dx * dz, a.syz + wt * dy * dz⟩)
    ⟨0, 0, 0, 0, 0⟩
  let det := acc.sxx * acc.syy - acc.sxy * acc.sxy
  if det = 0 then ((0, 0), false)
  else (((acc.sxz * acc.syy - acc.syz * acc.sxy) / det,
         (acc.syz * acc.sxx - acc.sxz * acc.sxy) / det), true)

/-- The nodal-derivative array for a field: one (gradient, reliable) pair per
vertex (spec §3, "Nodal derivative ... computed once per dataset"). -/
def gradientsFor (tri : Triangulation) (z : List ℚ) : List ((ℚ × ℚ) × Bool) :=
  (List.range tri.points.length).map (tri.nodalGradient z)

/-- Modelled from the spec: the closed interpolation-order variant (spec §9,
"a closed tagged variant" for orders 0, 1, 3). -/
inductive Order where
  | nearest
  | linear
  | cubic
deriving DecidableEq, Repr

/-- Decodes the caller's numeric order selector `\x7b0,1,3\x7d` (spec §6). -/
def decodeOrder : Nat → Option Order
  | 0 => some .nearest
  | 1 => some .linear
  | 3 => some .cubic
  | _ => none

/-- Dot product of a planar gradient with a displacement. -/
def dot2 (g : ℚ × ℚ) (d : Pt) : ℚ :=
  g.1 * d.1 + g.2 * d.2

/-- Piecewise-linear (barycentric) interpolation over a triangle
(spec §4.4, order 1). -/
def evalLinear (a b c p : Pt) (za zb zc : ℚ) : ℚ :=
  (cross b c p * za + cross c a p * zb + cross a b p * zc) / cross a b c

/-- Nearest-neighbour interpolation: the value of whichever of the triangle's
three vertices is geometrically closest to the query point (spec §4.4,
order 0). -/
def nearestVal (a b c p : Pt) (za zb zc : ℚ) : ℚ :=
  let da := distSq p a
  let db := distSq p b
  let dc := distSq p c
  if da ≤ db ∧ da ≤ dc then za
  else if db ≤ dc then zb
  else zc

/-- Cubic Bézier-triangle interpolant with edge control points from the nodal
derivatives (value and derivative matched at the vertices, as in the spec's
per-edge Hermite blend, spec §4.4 order 3). -/
def evalCubic (a b c p : Pt) (za zb zc : ℚ) (ga gb gc : ℚ × ℚ) : ℚ :=
  let dd := cross a b c
  let la := cross b c p / dd
  let lb := cross c a p / dd
  let lc := cross a b p / dd
  let b210 := za + dot2 ga (b - a) / 3
  let b201 := za + dot2 ga (c - a) / 3
  let b120 := zb + dot2 gb (a - b) / 3
  let b021 := zb + dot2 gb (c - b) / 3
  let b102 := zc + dot2 gc (a - c) / 3
  let b012 := zc + dot2 gc (b - c) / 3
  let b111 := (b210 + b201 + b120 + b021 + b102 + b012) / 4 - (za + zb + zc) / 6
  za * la ^ 3 + zb * lb ^ 3 + zc * lc ^ 3 +
    3 * (b210 * la ^ 2 * lb + b201 * la ^ 2 * lc + b120 * lb ^ 2 * la +
         b021 * lb ^ 2 * lc + b102 * lc ^ 2 * la + b012 * lc ^ 2 * lb) +
    6 * b111 * la * lb * lc

/-- Modelled from the spec: the automatic tension selection (spec §4.4) —
the cubic value is pulled toward the piecewise-linear value by a bounded
bisection (a fixed number of refinement steps) until it lies within the range
spanned by the local data; if the cap is reached the fully tensioned
(piecewise-linear) value is used. -/
def tensionClamp : Nat → ℚ → ℚ → ℚ → ℚ → ℚ
  | 0, lo, hi, lin, v => if lo ≤ v ∧ v ≤ hi then v else lin
  | n + 1, lo, hi, lin, v =>
      if lo ≤ v ∧ v ≤ hi then v else tensionClamp n lo hi lin ((v + lin) / 2)

/-- Modelled from the spec: the Tension-Spline Interpolant Builder (spec §4.4)
evaluated inside a containing simplex.  Order 3 with an unreliable gradient at
any of the three vertices degrades to order 1 (the spec's `DEGRADED_ORDER`
behaviour). -/
def evalInTriangle (tri : Triangulation) (z : List ℚ) (grads : List ((ℚ × ℚ) × Bool))
    (o : Order) (s : Nat × Nat × Nat) (p : Pt) : ℚ :=
  let a := tri.coord s.1
  let b := tri.coord s.2.1
  let c := tri.coord s.2.2
  let za := z.getD s.1 0
  let zb := z.getD s.2.1 0
  let zc := z.getD s.2.2 0
  match o with
  | .nearest => nearestVal a b c p za zb zc
  | .linear => evalLinear a b c p za zb zc
  | .cubic =>
      let ga := grads.getD s.1 ((0, 0), false)
      let gb := grads.getD s.2.1 ((0, 0), false)
      let gc := grads.getD s.2.2 ((0, 0), false)
      if ga.2 ∧ gb.2 ∧ gc.2 then
        let lo := min za (min zb zc)
        let hi := max za (max zb zc)
        tensionClamp 8 lo hi (evalLinear a b c p za zb zc)
          (evalCubic a b c p za zb zc ga.1 gb.1 gc.1)
      else evalLinear a b c p za zb zc

/-- Modelled from the spec: the extrapolation extension rule (spec §4.5) —
the affine extension of the nearest boundary triangle's interpolant (or, for
order 0, the nearest vertex value of that triangle). -/
def evalExtrapolated (tri : Triangulation) (z : List ℚ) (o : Order)
    (e : Nat × Nat) (p : Pt) : ℚ :=
  match tri.simplices.find? (fun s => (Triangulation.simplexEdges s).contains
      (Triangulation.normEdge e)) with
  | some s =>
      let a := tri.coord s.1
      let b := tri.coord s.2.1
      let c := tri.coord s.2.2
      let za := z.getD s.1 0
      let zb := z.getD s.2.1 0
      let zc := z.getD s.2.2 0
      match o with
      | .nearest => nearestVal a b c p za zb zc
      | _ => evalLinear a b c p za zb zc
  | none => 0

/-- Modelled from the spec: one query of the interpolation pipeline — locate,
evaluate, classify (spec §2 data flow, §4.4, §4.5).  Always returns a
(value, status) pair; every failure is reported through the status, never as
an exception (spec §7). -/
def interpolateOne (tri : Triangulation) (z : List ℚ) (grads : List ((ℚ × ℚ) × Bool))
    (o : Order) (q : FCoord × FCoord) : ℚ × Status :=
  match q with
  | (some x, some y) =>
      if tri.simplices.isEmpty then (0, .INVALID)
      else
        match tri.containingTriangle (x, y) with
        | some s => (evalInTriangle tri z grads o s (x, y), .INTERPOLATED)
        | none =>
            match tri.nearestBoundaryEdge (x, y) with
            | some e => (evalExtrapolated tri z o e (x, y), .EXTRAPOLATED)
            | none => (0, .INVALID)
  | _ => (0, .INVALID)

/-- Modelled from the spec: the `interpolate` entry point (spec §6) — takes
query coordinate arrays, a numeric order selector and the field array, and
returns the pair of equal-length value and status arrays; `none` models the
argument-validation failure for an unknown order or mismatched coordinate
array lengths. -/
def interpolate (tri : Triangulation) (xs ys : List FCoord) (order : Nat)
    (zdata : List ℚ) : Option (List ℚ × List Status) :=
  match decodeOrder order with
  | none => none
  | some o =>
      if xs.length = ys.length then
        let grads := gradientsFor tri zdata
        let res := (xs.zip ys).map (interpolateOne tri zdata grads o)
        some (res.map Prod.fst, res.map Prod.snd)
      else none

/-- Outcome of the walk-based Locator (spec §4.2): a containing triangle, the
nearest boundary edge with the extrapolation flag implied (`none` when no
boundary edge exists), the `LocateFailedError` raised by the visited-edge
cycle check, or the (provably unreachable) fuel-exhaustion marker. -/
inductive LocateResult where
  | inside (t : Nat)
  | outsideHull (e : Option (Nat × Nat))
  | cycleFailed
  | fuelOut
deriving DecidableEq, Repr

/-- The index of a triangle adjacent to triangle `t` across edge `e`. -/
def Triangulation.adjacentTri (tri : Triangulation) (t : Nat) (e : Nat × Nat) : Option Nat :=
  (List.range tri.simplices.length).find? (fun t' =>
    t' != t &&
      match tri.simplices.get? t' with
      | some s => (Triangulation.simplexEdges s).contains (Triangulation.normEdge e)
      | none => false)

/-- The first edge of a simplex whose opposite open half-plane contains the
query point (the walk direction of spec §4.2); `none` when the point is not
strictly beyond any edge (containment, or degenerate geometry). -/
def Triangulation.exitEdge (tri : Triangulation) (s : Nat × Nat × Nat) (p : Pt) :
    Option (Nat × Nat) :=
  let a := tri.coord s.1
  let b := tri.coord s.2.1
  let c := tri.coord s.2.2
  if cross a b p * cross a b c < 0 then some (s.1, s.2.1)
  else if cross b c p * cross b c a < 0 then some (s.2.1, s.2.2)
  else if cross c a p * cross c a b < 0 then some (s.2.2, s.1)
  else none

/-- Modelled from the spec: the Locator's bounded edge walk (spec §4.2) —
starting from a triangle, step across the edge whose opposite half-plane
contains the query, with a visited-triangle cycle check that fails with
`LocateFailedError` (`cycleFailed`) when a cycle is detected without
progress. -/
def Triangulation.locateWalk (tri : Triangulation) (p : Pt) :
    Nat → List Nat → Nat → LocateResult
  | fuel, visited, t =>
    if t ∈ visited then .cycleFailed
    else
      match tri.simplices.get? t with
      | none => .cycleFailed
      | some s =>
          if tri.memTri s p then .inside t
          else
            match tri.exitEdge s p with
            | none => .cycleFailed
            | some e =>
                match tri.adjacentTri t e with
                | none => .outsideHull (tri.nearestBoundaryEdge p)
                | some t' =>
                    match fuel with
                    | 0 => .fuelOut
                    | fuel' + 1 => tri.locateWalk p fuel' (t :: visited) t'

/-- The Locator entry point: walk from triangle `0` with fuel equal to the
number of triangles (one step per triangle suffices under the cycle check). -/
def Triangulation.locate (tri : Triangulation) (p : Pt) : LocateResult :=
  tri.locateWalk p tri.simplices.length [] 0

/-- The Status Classifier applied to a Locator outcome (spec §4.5, §7): a
located failure is treated as `INVALID`, never propagated as an exception. -/
def locateStatus : LocateResult → Status
  | .inside _ => .INTERPOLATED
  | .outsideHull (some _) => .EXTRAPOLATED
  | .outsideHull none => .INVALID
  | .cycleFailed => .INVALID
  | .fuelOut => .INVALID

/-- Batch point location: each query point is located independently, so one
failing point never aborts the batch (spec §7). -/
def locateBatch (tri : Triangulation) (qs : List Pt) : List LocateResult :=
  qs.map tri.locate

/-- Modelled from the spec: the construction-time error taxonomy (spec §7);
`degenerateInputError` is the spec's `DegenerateInputError`. -/
inductive BuildError where
  | degenerateInputError
deriving DecidableEq, Repr

/-- Coincident-input check: some coordinate occurs twice (spec §4.1). -/
def hasCoincident (pts : List Pt) : Bool :=
  decide (¬ pts.Nodup)

/-- All-collinear check: every triple of input points is collinear
(spec §4.1). -/
def allCollinear (pts : List Pt) : Bool :=
  pts.all (fun a => pts.all (fun b => pts.all (fun c => cross a b c == 0)))

/-- The vertex of a simplex not on the given edge. -/
def thirdVertex (s : Nat × Nat × Nat) (e : Nat × Nat) : Nat :=
  if s.1 != e.1 && s.1 != e.2 then s.1
  else if s.2.1 != e.1 && s.2.1 != e.2 then s.2.1
  else s.2.2

/-- Strict circumcircle membership: `d` lies strictly inside the circumcircle
of `(a, b, c)` (orientation-corrected determinant test, spec §4.1). -/
def inCircle (a b c d : Pt) : Bool :=
  let r1 := (a.1 - d.1, a.2 - d.2, distSq a d)
  let r2 := (b.1 - d.1, b.2 - d.2, distSq b d)
  let r3 := (c.1 - d.1, c.2 - d.2, distSq c d)
  let det := r1.1 * (r2.2.1 * r3.2.2 - r2.2.2 * r3.2.1) -
             r2.1 * (r1.2.1 * r3.2.2 - r1.2.2 * r3.2.1) +
             r3.1 * (r1.2.1 * r2.2.2 - r1.2.2 * r2.2.1)
  decide (det * cross a b c > 0)

/-- Split a triangle at an interior insertion point (spec §4.1, "locating the
containing triangle, splitting it"). -/
def splitTriangle (s : Nat × Nat × Nat) (i : Nat) : List (Nat × Nat × Nat) :=
  [(s.1, s.2.1, i), (s.2.1, s.2.2, i), (s.2.2, s.1, i)]

/-- Insert one point into a running triangulation: split the containing
triangle, or, for a point outside the current hull, connect it to every
visible boundary edge (spec §4.1 incremental insertion). -/
def insertOne (pts : List Pt) (simpls : List (Nat × Nat × Nat)) (i : Nat) :
    List (Nat × Nat × Nat) :=
  let tri : Triangulation := ⟨pts, simpls⟩
  let p := tri.coord i
  match tri.containingTriangle p with
  | some s => (simpls.filter (fun s' => s' != s)) ++ splitTriangle s i
  | none =>
      let newTris := tri.hullEdges.filterMap (fun e =>
        match simpls.find? (fun s => (Triangulation.simplexEdges s).contains e) with
        | some s =>
            let w := thirdVertex s e
            if cross (tri.coord e.1) (tri.coord e.2) p *
               cross (tri.coord e.1) (tri.coord e.2) (tri.coord w) < 0
            then some (e.1, e.2, i) else none
        | none => none)
      simpls ++ newTris

/-- Find one interior edge failing the circle test and flip it (spec §4.1,
"circle-test-driven edge flips"). -/
def findFlip (pts : List Pt) (simpls : List (Nat × Nat × Nat)) :
    Option (List (Nat × Nat × Nat)) :=
  let tri : Triangulation := ⟨pts, simpls⟩
  simpls.findSome? (fun s1 =>
    (Triangulation.simplexEdges s1).findSome? (fun e =>
      match simpls.find? (fun s2 => s2 != s1 &&
          (Triangulation.simplexEdges s2).contains e) with
      | some s2 =>
          let w1 := thirdVertex s1 e
          let w2 := thirdVertex s2 e
          if inCircle (tri.coord s1.1) (tri.coord s1.2.1) (tri.coord s1.2.2)
              (tri.coord w2)
          then some ((simpls.filter (fun x => x != s1 && x != s2)) ++
                     [(e.1, w1, w2), (e.2, w2, w1)])
          else none
      | none => none))

/-- The flip loop with an explicit fuel bound: flip illegal edges until none
remains or the bound is reached (spec §4.1, "edge flips outward until the
Delaunay property is restored locally"). -/
def flipLoop (pts : List Pt) : Nat → List (Nat × Nat × Nat) → List (Nat × Nat × Nat)
  | 0, simpls => simpls
  | n + 1, simpls =>
      match findFlip pts simpls with
      | some simpls' => flipLoop pts n simpls'
      | none => simpls

/-- The first (lexicographic) non-collinear index triple of the input. -/
def seedTriangle (pts : List Pt) : Option (Nat × Nat × Nat) :=
  (List.range pts.length).findSome? (fun i =>
    (List.range pts.length).findSome? (fun j =>
      (List.range pts.length).findSome? (fun k =>
        if i < j ∧ j < k ∧
            cross (pts.getD i (0, 0)) (pts.getD j (0, 0)) (pts.getD k (0, 0)) ≠ 0
        then some (i, j, k) else none)))

/-- Modelled from the spec: the incremental build phase (spec §4.1) — seed
with the first non-collinear triple, then insert the remaining points one at
a time, restoring the Delaunay property after each insertion by the fuelled
flip loop. -/
def delaunayBuild (pts : List Pt) : Triangulation :=
  match seedTriangle pts with
  | none => ⟨pts, []⟩
  | some (i, j, k) =>
      let rest := (List.range pts.length).filter (fun m => m != i && m != j && m != k)
      let simpls := rest.foldl
        (fun acc m => flipLoop pts (pts.length * pts.length) (insertOne pts acc m))
        [(i, j, k)]
      ⟨pts, simpls⟩

/-- Modelled from the spec: planar triangulation construction (spec §4.1) —
validate the input (`n ≥ 3`, no coincident points, not all collinear) and
fail with `DegenerateInputError` otherwise; a failure is fatal and returns no
partial triangulation state. -/
def triangulate (pts : List Pt) : Except BuildError Triangulation :=
  if pts.length < 3 || hasCoincident pts || allCollinear pts then
    .error .degenerateInputError
  else .ok (delaunayBuild pts)

/-- Modelled from the spec: a spherical vertex coordinate (spec §3) — a unit
3-vector position together with the cosine of its latitude (the per-vertex
datum relating the tangent-plane and Cartesian derivative forms). -/
structure SPoint where
  px : ℚ
  py : ℚ
  pz : ℚ
  cosLat : ℚ
deriving DecidableEq, Repr

/-- A 3-vector of rationals. -/
abbrev V3 : Type := ℚ × ℚ × ℚ

/-- Dot product of 3-vectors. -/
def dot3 (u v : V3) : ℚ :=
  u.1 * v.1 + u.2.1 * v.2.1 + u.2.2 * v.2.2

/-- Componentwise sum of 3-vectors. -/
def add3 (u v : V3) : V3 :=
  (u.1 + v.1, u.2.1 + v.2.1, u.2.2 + v.2.2)

/-- Scalar multiple of a 3-vector. -/
def smul3 (a : ℚ) (u : V3) : V3 :=
  (a * u.1, a * u.2.1, a * u.2.2)

/-- The position 3-vector of a spherical vertex. -/
def SPoint.vec (p : SPoint) : V3 :=
  (p.px, p.py, p.pz)

/-- Determinant of three position vectors; zero for every triple exactly when
all points lie on one plane through the origin, i.e. one great circle. -/
def det3 (a b c : SPoint) : ℚ :=
  a.px * (b.py * c.pz - b.pz * c.py) - a.py * (b.px * c.pz - b.pz * c.px) +
    a.pz * (b.px * c.py - b.py * c.px)

/-- All-on-one-great-circle check for spherical input (spec §4.1). -/
def allOneGreatCircle (pts : List SPoint) : Bool :=
  pts.all (fun a => pts.all (fun b => pts.all (fun c => det3 a b c == 0)))

/-- Modelled from the spec: the spherical Point Set & Triangulation
(spec §3) — geodesic triangles over unit vectors. -/
structure STriangulation where
  spoints : List SPoint
  ssimplices : List (Nat × Nat × Nat)
deriving DecidableEq, Repr

namespace STriangulation

/-- Coordinate of spherical vertex `i`. -/
def scoord (tri : STriangulation) (i : Nat) : SPoint :=
  tri.spoints.getD i ⟨1, 0, 0, 1⟩

/-- Vertices sharing a geodesic simplex with `v`. -/
def sneighborRing (tri : STriangulation) (v : Nat) : List Nat :=
  (((tri.ssimplices.filter (fun s => s.1 == v || s.2.1 == v || s.2.2 == v)).map
      (fun s => [s.1, s.2.1, s.2.2])).flatten.filter (fun w => w != v)).dedup

/-- Squared chordal distance between two spherical vertices. -/
def sdistSq (p q : SPoint) : ℚ :=
  (p.px - q.px) * (p.px - q.px) + (p.py - q.py) * (p.py - q.py) +
    (p.pz - q.pz) * (p.pz - q.pz)

/-- Modelled from the spec: the per-vertex nodal derivative in raw 3-D
Cartesian form (spec §4.3) — an inverse-squared-distance weighted fit over
the immediate neighbour ring, with the radial component removed so the
derivative lies in the vertex's tangent plane. -/
def nodalGradXYZ (tri : STriangulation) (z : List ℚ) (v : Nat) : V3 :=
  let p := tri.scoord v
  let zv := z.getD v 0
  let raw := (tri.sneighborRing v).foldl
    (fun (a : V3) w =>
      let q := tri.scoord w
      let d := sdistSq p q
      let wt := if d = 0 then 0 else (z.getD w 0 - zv) / d
      add3 a (smul3 wt (q.px - p.px, q.py - p.py, q.pz - p.pz)))
    (0, 0, 0)
  add3 raw (smul3 (-(dot3 raw p.vec)) p.vec)

/-- The raw longitude direction `∂(position)/∂longitude` at a vertex (the
unnormalised tangent vector along the parallel). -/
def lonRaw (p : SPoint) : V3 :=
  (-p.py, p.px, 0)

/-- The unit east tangent direction at a vertex. -/
def eastDir (p : SPoint) : V3 :=
  (-p.py / p.cosLat, p.px / p.cosLat, 0)

/-- The unit north tangent direction at a vertex. -/
def northDir (p : SPoint) : V3 :=
  (-p.pz * p.px / p.cosLat, -p.pz * p.py / p.cosLat, p.cosLat)

/-- The fixed per-vertex linear projection from the Cartesian derivative form
to the tangent-plane (lon, lat) form (spec §4.3, the `convert` transform). -/
def tangentProject (p : SPoint) (g : V3) : ℚ × ℚ :=
  (dot3 g (eastDir p), dot3 g (northDir p))

/-- The inverse transform, lifting a tangent-plane pair back to a Cartesian
vector (spec §4.3, `convert(tangent) -> cartesian`). -/
def cartesianLift (p : SPoint) (t : ℚ × ℚ) : V3 :=
  add3 (smul3 t.1 (eastDir p)) (smul3 t.2 (northDir p))

/-- Modelled from the spec: the `gradient_xyz` entry point — the raw 3-D
Cartesian nodal derivative per vertex (spec §4.3, §6). -/
def gradientXYZ (tri : STriangulation) (z : List ℚ) : List V3 :=
  (List.range tri.spoints.length).map (tri.nodalGradXYZ z)

/-- Modelled from the spec: the `gradient_lonlat` entry point — the
tangent-plane derivative pair per vertex, with the longitude component scaled
by `1 / cos(latitude)` (spec §4.3, §6). -/
def gradientLonLat (tri : STriangulation) (z : List ℚ) : List (ℚ × ℚ) :=
  (List.range tri.spoints.length).map
    (fun v => tangentProject (tri.scoord v) (tri.nodalGradXYZ z v))

end STriangulation

/-- Modelled from the spec: spherical triangulation construction (spec §4.1)
— validate the input (`n ≥ 3`, no coincident points, not all on one great
circle) and fail with `DegenerateInputError` otherwise.  The geodesic build
phase (incremental insertion with spherical circle-test flips) is not
exercised by any claim below; it is represented here by a geodesic fan over
the validated points. -/
def sphericalTriangulate (pts : List SPoint) : Except BuildError STriangulation :=
  if pts.length < 3 || decide (¬ pts.Nodup) || allOneGreatCircle pts then
    .error .degenerateInputError
  else
    .ok ⟨pts, (List.range (pts.length - 2)).map (fun i => (0, i + 1, i + 2))⟩

/-- Modelled from the spec: the engine handle owning the nodal-derivative
cache (spec §3 lifecycle, §9) — the immutable triangulation plus an explicit
cache of the gradients for the most recent field array. -/
structure Engine where
  tri : Triangulation
  cache : Option (List ℚ × List ((ℚ × ℚ) × Bool))
deriving Repr

/-- Cache coherence: whatever the cache holds is the gradient array of the
held field for the engine's own triangulation. -/
def Engine.wfCache (e : Engine) : Prop :=
  ∀ z g, e.cache = some (z, g) → g = gradientsFor e.tri z

/-- Modelled from the spec: lazy nodal-derivative lookup (spec §3) — reuse the
cache when the field matches, otherwise recompute and republish the cache (a
new field array invalidates the cache). -/
def getGradients (e : Engine) (z : List ℚ) : List ((ℚ × ℚ) × Bool) × Engine :=
  match e.cache with
  | some (z', g) =>
      if z' = z then (g, e)
      else (gradientsFor e.tri z, { e with cache := some (z, gradientsFor e.tri z) })
  | none => (gradientsFor e.tri z, { e with cache := some (z, gradientsFor e.tri z) })

/-- The stateful `interpolate` call on an engine handle: same result as the
pure pipeline, threading the nodal-derivative cache. -/
def interpolateS (e : Engine) (xs ys : List FCoord) (order : Nat) (z : List ℚ) :
    Option (List ℚ × List Status) × Engine :=
  match decodeOrder order with
  | none => (none, e)
  | some o =>
      if xs.length = ys.length then
        let gg := getGradients e z
        let res := (xs.zip ys).map (interpolateOne e.tri z gg.1 o)
        (some (res.map Prod.fst, res.map Prod.snd), gg.2)
      else (none, e)

/-- The stateful gradient call on an engine handle: returns the per-vertex
derivative vectors, threading the cache. -/
def gradientS (e : Engine) (z : List ℚ) : List (ℚ × ℚ) × Engine :=
  let gg := getGradients e z
  (gg.1.map Prod.fst, gg.2)

/-- A small concrete planar triangulation (the unit square split along its
diagonal), used to exercise the theorems on explicit inputs. -/
def demoTri : Triangulation :=
  ⟨[(0, 0), (1, 0), (0, 1), (1, 1)], [(0, 1, 2), (1, 3, 2)]⟩

/-- A small concrete spherical triangulation (one octant of the sphere),
used to exercise the gradient theorems on explicit inputs. -/
def demoSph : STriangulation :=
  ⟨[⟨1, 0, 0, 1⟩, ⟨0, 1, 0, 1⟩, ⟨0, 0, 1, 0⟩], [(0, 1, 2)]⟩

/-- The status component of a single query is exactly the Status Classifier
output for that query; it does not depend on the interpolation order or on
the nodal-derivative array. -/
theorem interpolateOne_status (tri : Triangulation) (z : List ℚ)
    (grads : List ((ℚ × ℚ) × Bool)) (o : Order) (q : FCoord × FCoord) :
    (interpolateOne tri z grads o q).2 = pointStatus tri q := by
  obtain ⟨qx, qy⟩ := q
  cases qx with
  | none => rfl
  | some x =>
    cases qy with
    | none => rfl
    | some y =>
      simp only [interpolateOne, pointStatus]
      split
      · rfl
      · cases h : tri.containingTriangle (x, y) with
        | some s => rfl
        | none =>
          cases h' : tri.nearestBoundaryEdge (x, y) with
          | some e => rfl
          | none => rfl

/-- C1: for every triangulation, field array, order in \x7b0,1,3\x7d and pair
of query coordinate arrays of equal length `m`, `interpolate` returns exactly
two arrays — interpolated values and per-point status codes — each of length
`m`, and the i-th status is the classification of the i-th produced value
(both components of the i-th query's result). -/
theorem interpolate_returns_matched_arrays (tri : Triangulation) (xs ys : List FCoord)
    (order : Nat) (zdata : List ℚ) (m : Nat) (horder : order = 0 ∨ order = 1 ∨ order = 3)
    (hx : xs.length = m) (hy : ys.length = m) :
    ∃ o vals stats, decodeOrder order = some o ∧
      interpolate tri xs ys order zdata = some (vals, stats) ∧
      vals.length = m ∧ stats.length = m ∧
      ∀ i, i < m →
        vals[i]? = ((xs.zip ys)[i]?).map
          (fun q => (interpolateOne tri zdata (gradientsFor tri zdata) o q).1) ∧
        stats[i]? = ((xs.zip ys)[i]?).map (fun q => pointStatus tri q) := by
  have ho : ∃ o, decodeOrder order = some o := by
    rcases horder with h | h | h <;> subst h
    · exact ⟨.nearest, rfl⟩
    · exact ⟨.linear, rfl⟩
    · exact ⟨.cubic, rfl⟩
  obtain ⟨o, ho⟩ := ho
  have hlen : xs.length = ys.length := by omega
  have hzip : (xs.zip ys).length = m := by
    simp [List.length_zip, hx, hy]
  refine ⟨o,
    ((xs.zip ys).map (interpolateOne tri zdata (gradientsFor tri zdata) o)).map Prod.fst,
    ((xs.zip ys).map (interpolateOne tri zdata (gradientsFor tri zdata) o)).map Prod.snd,
    ho, ?_, ?_, ?_, ?_⟩
  · simp [interpolate, ho, hlen]
  · simp [hzip]
  · simp [hzip]
  · intro i hi
    constructor
    · simp only [List.getElem?_map, Option.map_map]
      cases (xs.zip ys)[i]? <;> rfl
    · simp only [List.getElem?_map, Option.map_map]
      cases hq : (xs.zip ys)[i]? with
      | none => rfl
      | some q =>
        simp [Function.comp, interpolateOne_status]

/-- Witness for C1 on the concrete demo triangulation with two query points
and order 1. -/
theorem interpolate_returns_matched_arrays_witness :
    ∃ o vals stats, decodeOrder 1 = some o ∧
      interpolate demoTri [some (1/4 : ℚ), some 5] [some (1/4 : ℚ), some 5] 1
        [10, 20, 30, 40] = some (vals, stats) ∧
      vals.length = 2 ∧ stats.length = 2 ∧
      ∀ i, i < 2 →
        vals[i]? = (([some (1/4 : ℚ), some 5].zip [some (1/4 : ℚ), some 5])[i]?).map
          (fun q => (interpolateOne demoTri [10, 20, 30, 40]
            (gradientsFor demoTri [10, 20, 30, 40]) o q).1) ∧
        stats[i]? = (([some (1/4 : ℚ), some 5].zip [some (1/4 : ℚ), some 5])[i]?).map
          (fun q => pointStatus demoTri q) :=
  interpolate_returns_matched_arrays demoTri _ _ 1 _ 2 (Or.inr (Or.inl rfl)) rfl rfl

/-- C2: a per-query failure (here a non-finite coordinate at position `i`)
never raises or discards the batch — `interpolate` still returns the full
result pair, the failing point carries status `INVALID`, and every point of
the batch receives exactly the value and classification determined by its own
query alone. -/
theorem interpolate_per_query_isolation (tri : Triangulation) (xs ys : List FCoord)
    (order : Nat) (zdata : List ℚ) (o : Order) (i : Nat) (qi : FCoord × FCoord)
    (ho : decodeOrder order = some o) (hlen : xs.length = ys.length)
    (hq : (xs.zip ys)[i]? = some qi) (hbad : qi.1 = none ∨ qi.2 = none) :
    ∃ vals stats, interpolate tri xs ys order zdata = some (vals, stats) ∧
      stats[i]? = some .INVALID ∧
      ∀ (j : Nat) (q : FCoord × FCoord), (xs.zip ys)[j]? = some q →
        vals[j]? = some ((interpolateOne tri zdata (gradientsFor tri zdata) o q).1) ∧
        stats[j]? = some (pointStatus tri q) := by
  have hinv : pointStatus tri qi = .INVALID := by
    obtain ⟨q1, q2⟩ := qi
    rcases hbad with h | h <;> subst h
    · rfl
    · cases q1 <;> rfl
  refine ⟨((xs.zip ys).map (interpolateOne tri zdata (gradientsFor tri zdata) o)).map Prod.fst,
    ((xs.zip ys).map (interpolateOne tri zdata (gradientsFor tri zdata) o)).map Prod.snd,
    ?_, ?_, ?_⟩
  · simp [interpolate, ho, hlen]
  · simp [List.getElem?_map, Option.map_map, hq, Function.comp, interpolateOne_status, hinv]
  · intro j q hj
    constructor
    · simp [List.getElem?_map, Option.map_map, hj]
    · simp [List.getElem?_map, Option.map_map, hj, Function.comp, interpolateOne_status]

/-- Witness for C2: a three-point batch on the demo triangulation whose middle
query has a non-finite coordinate. -/
theorem interpolate_per_query_isolation_witness :
    ∃ vals stats,
      interpolate demoTri [some (1/4 : ℚ), none, some 5] [some (1/4 : ℚ), some 0, some 5] 1
        [10, 20, 30, 40] = some (vals, stats) ∧
      stats[1]? = some .INVALID ∧
      ∀ (j : Nat) (q : FCoord × FCoord), (([some (1/4 : ℚ), none, some 5].zip [some (1/4 : ℚ), some 0, some 5])[j]?) = some q →
        vals[j]? = some ((interpolateOne demoTri [10, 20, 30, 40]
          (gradientsFor demoTri [10, 20, 30, 40]) .linear q).1) ∧
        stats[j]? = some (pointStatus demoTri q) :=
  interpolate_per_query_isolation demoTri _ _ 1 _ .linear 1 (none, some 0)
    rfl rfl rfl (Or.inl rfl)

/-- C10: the status array returned by `interpolate` is identical across the
order selectors 0, 1 and 3 — the classification of each point depends only on
the query's geometric location relative to the triangulation, not on which
interpolation algorithm produced the value. -/
theorem status_independent_of_order (tri : Triangulation) (xs ys : List FCoord)
    (zdata : List ℚ) (n1 n2 : Nat)
    (h1 : n1 = 0 ∨ n1 = 1 ∨ n1 = 3) (h2 : n2 = 0 ∨ n2 = 1 ∨ n2 = 3) :
    (interpolate tri xs ys n1 zdata).map (fun r => r.2) =
      (interpolate tri xs ys n2 zdata).map (fun r => r.2) := by
  have ho1 : ∃ o, decodeOrder n1 = some o := by
    rcases h1 with h | h | h <;> subst h
    · exact ⟨.nearest, rfl⟩
    · exact ⟨.linear, rfl⟩
    · exact ⟨.cubic, rfl⟩
  have ho2 : ∃ o, decodeOrder n2 = some o := by
    rcases h2 with h | h | h <;> subst h
    · exact ⟨.nearest, rfl⟩
    · exact ⟨.linear, rfl⟩
    · exact ⟨.cubic, rfl⟩
  obtain ⟨o1, ho1⟩ := ho1
  obtain ⟨o2, ho2⟩ := ho2
  by_cases hlen : xs.length = ys.length
  · simp only [interpolate, ho1, ho2, if_pos hlen, Option.map_some']
    congr 1
    simp only [List.map_map]
    apply List.map_congr_left
    intro q _
    simp [Function.comp, interpolateOne_status]
  · simp [interpolate, ho1, ho2, hlen]

/-- Witness for C10: orders 0 and 3 produce the same status array on a
concrete batch over the demo triangulation. -/
theorem status_independent_of_order_witness :
    (interpolate demoTri [some (1/4 : ℚ), some 5, none] [some (1/4 : ℚ), some 5, some 0] 0
        [10, 20, 30, 40]).map (fun r => r.2) =
      (interpolate demoTri [some (1/4 : ℚ), some 5, none] [some (1/4 : ℚ), some 5, some 0] 3
        [10, 20, 30, 40]).map (fun r => r.2) :=
  status_independent_of_order demoTri _ _ _ 0 3 (Or.inl rfl) (Or.inr (Or.inr rfl))

/-- A duplicate-free list of naturals below `n` has at most `n` elements. -/
theorem nodup_bounded_length_le {l : List Nat} {n : Nat}
    (hnd : l.Nodup) (hlt : ∀ v ∈ l, v < n) : l.length ≤ n := by
  have hcard : l.toFinset.card = l.length := List.toFinset_card_of_nodup hnd
  have hsub : l.toFinset ⊆ Finset.range n := by
    intro x hx
    exact Finset.mem_range.mpr (hlt x (List.mem_toFinset.mp hx))
  have := Finset.card_le_card hsub
  simpa [hcard] using this

/-- The walk's cycle check bounds it: with fuel covering the unvisited
triangles, the fuel-exhaustion branch is unreachable. -/
theorem locateWalk_ne_fuelOut (tri : Triangulation) (p : Pt) :
    ∀ (fuel : Nat) (visited : List Nat) (t : Nat), visited.Nodup →
      (∀ v ∈ visited, v < tri.simplices.length) →
      tri.simplices.length ≤ fuel + visited.length →
      tri.locateWalk p fuel visited t ≠ .fuelOut := by
  intro fuel
  induction fuel with
  | zero =>
    intro visited t hnd hlt hle
    rw [Triangulation.locateWalk]
    by_cases hv : t ∈ visited
    · simp [hv]
    · simp only [if_neg hv]
      cases hs : tri.simplices.get? t with
      | none => simp
      | some s =>
        by_cases hm : tri.memTri s p
        · simp [hm]
        · simp only [hm, Bool.false_eq_true, if_neg, if_false]
          cases he : tri.exitEdge s p with
          | none => simp
          | some e =>
            dsimp only
            cases ha : tri.adjacentTri t e with
            | none => simp
            | some t' =>
              exfalso
              have ht : t < tri.simplices.length := by
                by_contra h
                push_neg at h
                rw [List.get?_eq_none.mpr h] at hs
                exact Option.noConfusion hs
              have hnd' : (t :: visited).Nodup := List.nodup_cons.mpr ⟨hv, hnd⟩
              have hlt' : ∀ v ∈ t :: visited, v < tri.simplices.length := by
                intro v hmem
                rcases List.mem_cons.mp hmem with h | h
                · exact h ▸ ht
                · exact hlt v h
              have := nodup_bounded_length_le hnd' hlt'
              simp only [List.length_cons] at this
              omega
  | succ f ih =>
    intro visited t hnd hlt hle
    rw [Triangulation.locateWalk]
    by_cases hv : t ∈ visited
    · simp [hv]
    · simp only [if_neg hv]
      cases hs : tri.simplices.get? t with
      | none => simp
      | some s =>
        by_cases hm : tri.memTri s p
        · simp [hm]
        · simp only [hm, Bool.false_eq_true, if_neg, if_false]
          cases he : tri.exitEdge s p with
          | none => simp
          | some e =>
            dsimp only
            cases ha : tri.adjacentTri t e with
            | none => simp
            | some t' =>
              have ht : t < tri.simplices.length := by
                by_contra h
                push_neg at h
                rw [List.get?_eq_none.mpr h] at hs
                exact Option.noConfusion hs
              apply ih (t :: visited) t' (List.nodup_cons.mpr ⟨hv, hnd⟩)
              · intro v hmem
                rcases List.mem_cons.mp hmem with h | h
                · exact h ▸ ht
                · exact hlt v h
              · simp only [List.length_cons]
                omega

/-- When the walk answers `inside t`, triangle `t` really contains the query
point. -/
theorem locateWalk_inside_sound (tri : Triangulation) (p : Pt) :
    ∀ (fuel : Nat) (visited : List Nat) (t t' : Nat),
      tri.locateWalk p fuel visited t = .inside t' →
      ∃ s, tri.simplices.get? t' = some s ∧ tri.memTri s p = true := by
  intro fuel
  induction fuel with
  | zero =>
    intro visited t t' hres
    rw [Triangulation.locateWalk] at hres
    by_cases hv : t ∈ visited
    · rw [if_pos hv] at hres
      exact LocateResult.noConfusion hres
    · rw [if_neg hv] at hres
      cases hs : tri.simplices.get? t with
      | none =>
        rw [hs] at hres
        exact LocateResult.noConfusion hres
      | some s =>
        rw [hs] at hres
        dsimp only at hres
        by_cases hm : tri.memTri s p = true
        · rw [if_pos hm] at hres
          cases hres
          exact ⟨s, hs, hm⟩
        · rw [if_neg hm] at hres
          cases he : tri.exitEdge s p with
          | none =>
            rw [he] at hres
            exact LocateResult.noConfusion hres
          | some e =>
            rw [he] at hres
            dsimp only at hres
            cases ha : tri.adjacentTri t e with
            | none =>
              rw [ha] at hres
              exact LocateResult.noConfusion hres
            | some t'' =>
              rw [ha] at hres
              exact LocateResult.noConfusion hres
  | succ f ih =>
    intro visited t t' hres
    rw [Triangulation.locateWalk] at hres
    by_cases hv : t ∈ visited
    · rw [if_pos hv] at hres
      exact LocateResult.noConfusion hres
    · rw [if_neg hv] at hres
      cases hs : tri.simplices.get? t with
      | none =>
        rw [hs] at hres
        exact LocateResult.noConfusion hres
      | some s =>
        rw [hs] at hres
        dsimp only at hres
        by_cases hm : tri.memTri s p = true
        · rw [if_pos hm] at hres
          cases hres
          exact ⟨s, hs, hm⟩
        · rw [if_neg hm] at hres
          cases he : tri.exitEdge s p with
          | none =>
            rw [he] at hres
            exact LocateResult.noConfusion hres
          | some e =>
            rw [he] at hres
            dsimp only at hres
            cases ha : tri.adjacentTri t e with
            | none =>
              rw [ha] at hres
              exact LocateResult.noConfusion hres
            | some t'' =>
              rw [ha] at hres
              exact ih (t :: visited) t'' t' hres

/-- When the walk answers `outsideHull e`, the reported edge is the nearest
boundary edge of the triangulation. -/
theorem locateWalk_outside_sound (tri : Triangulation) (p : Pt) :
    ∀ (fuel : Nat) (visited : List Nat) (t : Nat) (e : Option (Nat × Nat)),
      tri.locateWalk p fuel visited t = .outsideHull e →
      e = tri.nearestBoundaryEdge p := by
  intro fuel
  induction fuel with
  | zero =>
    intro visited t e hres
    rw [Triangulation.locateWalk] at hres
    by_cases hv : t ∈ visited
    · rw [if_pos hv] at hres
      exact LocateResult.noConfusion hres
    · rw [if_neg hv] at hres
      cases hs : tri.simplices.get? t with
      | none =>
        rw [hs] at hres
        exact LocateResult.noConfusion hres
      | some s =>
        rw [hs] at hres
        dsimp only at hres
        by_cases hm : tri.memTri s p = true
        · rw [if_pos hm] at hres
          exact LocateResult.noConfusion hres
        · rw [if_neg hm] at hres
          cases he : tri.exitEdge s p with
          | none =>
            rw [he] at hres
            exact LocateResult.noConfusion hres
          | some e' =>
            rw [he] at hres
            dsimp only at hres
            cases ha : tri.adjacentTri t e' with
            | none =>
              rw [ha] at hres
              cases hres
              rfl
            | some t'' =>
              rw [ha] at hres
              exact LocateResult.noConfusion hres
  | succ f ih =>
    intro visited t e hres
    rw [Triangulation.locateWalk] at hres
    by_cases hv : t ∈ visited
    · rw [if_pos hv] at hres
      exact LocateResult.noConfusion hres
    · rw [if_neg hv] at hres
      cases hs : tri.simplices.get? t with
      | none =>
        rw [hs] at hres
        exact LocateResult.noConfusion hres
      | some s =>
        rw [hs] at hres
        dsimp only at hres
        by_cases hm : tri.memTri s p = true
        · rw [if_pos hm] at hres
          exact LocateResult.noConfusion hres
        · rw [if_neg hm] at hres
          cases he : tri.exitEdge s p with
          | none =>
            rw [he] at hres
            exact LocateResult.noConfusion hres
          | some e' =>
            rw [he] at hres
            dsimp only at hres
            cases ha : tri.adjacentTri t e' with
            | none =>
              rw [ha] at hres
              cases hres
              rfl
            | some t'' =>
              rw [ha] at hres
              exact ih (t :: visited) t'' e hres

/-- C8: the edge-walking locator terminates on every query: it never exhausts
its fuel (the visited-edge cycle check fires first), an `inside` answer names
a triangle really containing the point, an `outsideHull` answer carries the
nearest boundary edge, a cycle failure (`LocateFailedError`) classifies as
`INVALID`, and batch location is per-point — one failing point leaves every
other entry of the batch intact. -/
theorem locator_terminates_recoverable (tri : Triangulation) (p : Pt) :
    tri.locate p ≠ .fuelOut ∧
    (∀ t, tri.locate p = .inside t →
      ∃ s, tri.simplices.get? t = some s ∧ tri.memTri s p = true) ∧
    (∀ e, tri.locate p = .outsideHull e → e = tri.nearestBoundaryEdge p) ∧
    locateStatus .cycleFailed = .INVALID ∧
    (∀ (qs : List Pt) (i : Nat), (locateBatch tri qs)[i]? = (qs[i]?).map tri.locate) := by
  refine ⟨?_, ?_, ?_, rfl, ?_⟩
  · exact locateWalk_ne_fuelOut tri p tri.simplices.length [] 0 List.nodup_nil
      (by intro v hv; cases hv) (by simp)
  · intro t ht
    exact locateWalk_inside_sound tri p tri.simplices.length [] 0 t ht
  · intro e he
    exact locateWalk_outside_sound tri p tri.simplices.length [] 0 e he
  · intro qs i
    simp [locateBatch, List.getElem?_map]

/-- Cache lookup is coherent: under a well-formed cache it returns exactly the
fresh gradient array, leaves the triangulation untouched and preserves cache
well-formedness. -/
theorem getGradients_spec (e : Engine) (z : List ℚ) (h : e.wfCache) :
    (getGradients e z).1 = gradientsFor e.tri z ∧
    (getGradients e z).2.tri = e.tri ∧
    (getGradients e z).2.wfCache := by
  obtain ⟨tri, cache⟩ := e
  cases cache with
  | none =>
    refine ⟨rfl, rfl, ?_⟩
    intro z' g' hm
    simp only [getGradients] at hm
    injection hm with hm
    injection hm with hm1 hm2
    subst hm1
    exact hm2.symm
  | some zg =>
    obtain ⟨zc, g⟩ := zg
    have hg : g = gradientsFor tri zc := h zc g rfl
    by_cases hz : zc = z
    · subst hz
      refine ⟨?_, ?_, ?_⟩
      · simp [getGradients, hg]
      · simp [getGradients]
      · simpa [getGradients] using h
    · have hred : (getGradients ⟨tri, some (zc, g)⟩ z).2 =
          ⟨tri, some (z, gradientsFor tri z)⟩ := by
        simp [getGradients, hz]
      refine ⟨?_, ?_, ?_⟩
      · simp [getGradients, hz]
      · rw [hred]
      · rw [hred]
        intro z' g' hm
        injection hm with hm
        injection hm with hm1 hm2
        subst hm1
        exact hm2.symm

/-- The stateful call equals the pure pipeline and only republishes the
cache. -/
theorem interpolateS_spec (e : Engine) (xs ys : List FCoord) (o : Nat)
    (z : List ℚ) (h : e.wfCache) :
    (interpolateS e xs ys o z).1 = interpolate e.tri xs ys o z ∧
    (interpolateS e xs ys o z).2.tri = e.tri ∧
    (interpolateS e xs ys o z).2.wfCache := by
  cases ho : decodeOrder o with
  | none => exact ⟨by simp [interpolateS, interpolate, ho], by simp [interpolateS, ho],
      by simpa [interpolateS, ho] using h⟩
  | some ord =>
    obtain ⟨hg1, hg2, hg3⟩ := getGradients_spec e z h
    by_cases hlen : xs.length = ys.length
    · refine ⟨?_, ?_, ?_⟩
      · simp [interpolateS, interpolate, ho, hlen, hg1]
      · simp [interpolateS, ho, hlen, hg2]
      · simpa [interpolateS, ho, hlen] using hg3
    · exact ⟨by simp [interpolateS, interpolate, ho, hlen],
        by simp [interpolateS, ho, hlen],
        by simpa [interpolateS, ho, hlen] using h⟩

/-- C9: querying operations never mutate their inputs — a stateful
`interpolate` call leaves the triangulation (coordinates, simplices and hence
adjacency) unchanged and only republishes the derivative cache coherently,
its result equals the pure pipeline on fresh inputs, a back-to-back second
call with another order (e.g. order 1 then order 3) also behaves exactly as
on fresh inputs, and the gradient query likewise leaves the triangulation
unchanged and returns the fresh per-vertex derivative array. -/
theorem query_calls_pure_frame (e : Engine) (xs ys : List FCoord) (o1 o2 : Nat)
    (z : List ℚ) (h : e.wfCache) :
    (interpolateS e xs ys o1 z).2.tri = e.tri ∧
    (interpolateS e xs ys o1 z).2.wfCache ∧
    (interpolateS e xs ys o1 z).1 = interpolate e.tri xs ys o1 z ∧
    (interpolateS (interpolateS e xs ys o1 z).2 xs ys o2 z).1 =
      interpolate e.tri xs ys o2 z ∧
    (gradientS e z).2.tri = e.tri ∧
    (gradientS e z).1 = (gradientsFor e.tri z).map Prod.fst := by
  obtain ⟨hr1, ht1, hw1⟩ := interpolateS_spec e xs ys o1 z h
  obtain ⟨hr2, _, _⟩ := interpolateS_spec (interpolateS e xs ys o1 z).2 xs ys o2 z hw1
  obtain ⟨g1, g2, _⟩ := getGradients_spec e z h
  exact ⟨ht1, hw1, hr1, by rw [hr2, ht1], by simp [gradientS, g2], by simp [gradientS, g1]⟩

/-- Witness for C9 on the demo triangulation with an initially empty cache. -/
theorem query_calls_pure_frame_witness :
    (interpolateS ⟨demoTri, none⟩ [some (1/4 : ℚ)] [some (1/4 : ℚ)] 1 [10, 20, 30, 40]).2.tri =
        Engine.tri ⟨demoTri, none⟩ ∧
    (interpolateS ⟨demoTri, none⟩ [some (1/4 : ℚ)] [some (1/4 : ℚ)] 1 [10, 20, 30, 40]).2.wfCache ∧
    (interpolateS ⟨demoTri, none⟩ [some (1/4 : ℚ)] [some (1/4 : ℚ)] 1 [10, 20, 30, 40]).1 =
      interpolate (Engine.tri ⟨demoTri, none⟩) [some (1/4 : ℚ)] [some (1/4 : ℚ)] 1 [10, 20, 30, 40] ∧
    (interpolateS (interpolateS ⟨demoTri, none⟩ [some (1/4 : ℚ)] [some (1/4 : ℚ)] 1
        [10, 20, 30, 40]).2 [some (1/4 : ℚ)] [some (1/4 : ℚ)] 3 [10, 20, 30, 40]).1 =
      interpolate (Engine.tri ⟨demoTri, none⟩) [some (1/4 : ℚ)] [some (1/4 : ℚ)] 3 [10, 20, 30, 40] ∧
    (gradientS ⟨demoTri, none⟩ [10, 20, 30, 40]).2.tri = Engine.tri ⟨demoTri, none⟩ ∧
    (gradientS ⟨demoTri, none⟩ [10, 20, 30, 40]).1 =
      (gradientsFor (Engine.tri ⟨demoTri, none⟩) [10, 20, 30, 40]).map Prod.fst :=
  query_calls_pure_frame ⟨demoTri, none⟩ _ _ 1 3 _
    (fun _ _ hm => Option.noConfusion hm)

/-- C7: triangulation construction from degenerate input — coincident points
or all-collinear points in the planar case, coincident points or all points
on one great circle in the spherical case — fails with
`DegenerateInputError`; the failure is fatal to the build and no (partial)
triangulation is returned. -/
theorem degenerate_input_rejected (pts : List Pt) (spts : List SPoint)
    (hp : hasCoincident pts = true ∨ allCollinear pts = true)
    (hs : decide (¬ spts.Nodup) = true ∨ allOneGreatCircle spts = true) :
    triangulate pts = .error .degenerateInputError ∧
    (∀ t, triangulate pts ≠ .ok t) ∧
    sphericalTriangulate spts = .error .degenerateInputError ∧
    (∀ t, sphericalTriangulate spts ≠ .ok t) := by
  have h1 : triangulate pts = .error .degenerateInputError := by
    rcases hp with h | h <;> simp [triangulate, h]
  have h2 : sphericalTriangulate spts = .error .degenerateInputError := by
    rcases hs with h | h <;> simp [sphericalTriangulate, h]
  refine ⟨h1, ?_, h2, ?_⟩
  · intro t ht
    rw [h1] at ht
    exact Except.noConfusion ht
  · intro t ht
    rw [h2] at ht
    exact Except.noConfusion ht

/-- Witness for C7: a planar input with a repeated point and a spherical
input lying entirely on the equator are both rejected. -/
theorem degenerate_input_rejected_witness :
    triangulate [(0, 0), (1, 0), (0, 0), (2, 3)] = .error .degenerateInputError ∧
    (∀ t, triangulate [(0, 0), (1, 0), (0, 0), (2, 3)] ≠ .ok t) ∧
    sphericalTriangulate [⟨1, 0, 0, 1⟩, ⟨0, 1, 0, 1⟩, ⟨-1, 0, 0, 1⟩] =
      .error .degenerateInputError ∧
    (∀ t, sphericalTriangulate [⟨1, 0, 0, 1⟩, ⟨0, 1, 0, 1⟩, ⟨-1, 0, 0, 1⟩] ≠ .ok t) :=
  degenerate_input_rejected _ _ (Or.inl (by decide))
    (Or.inr (by norm_num [allOneGreatCircle, det3]))

/-- C6: for every vertex of a spherical triangulation and field array, the
longitude component returned by `gradient_lonlat` is the raw tangent-plane
longitude derivative scaled by `1 / cos(latitude)`, `gradient_xyz` returns
the same per-vertex nodal derivative in raw 3-D Cartesian form, and the two
output forms are related entrywise by the fixed per-vertex linear projection
`tangentProject` (linear in the derivative argument). -/
theorem gradient_forms_related (tri : STriangulation) (z : List ℚ) (v : Nat)
    (hv : v < tri.spoints.length) :
    (tri.gradientXYZ z)[v]? = some (tri.nodalGradXYZ z v) ∧
    (tri.gradientLonLat z)[v]? = ((tri.gradientXYZ z)[v]?).map
      (STriangulation.tangentProject (tri.scoord v)) ∧
    (STriangulation.tangentProject (tri.scoord v) (tri.nodalGradXYZ z v)).1 =
      (1 / (tri.scoord v).cosLat) *
        dot3 (tri.nodalGradXYZ z v) (STriangulation.lonRaw (tri.scoord v)) ∧
    (∀ (p : SPoint) (g h : V3) (a : ℚ),
      STriangulation.tangentProject p (add3 g h) =
        ((STriangulation.tangentProject p g).1 + (STriangulation.tangentProject p h).1,
         (STriangulation.tangentProject p g).2 + (STriangulation.tangentProject p h).2) ∧
      STriangulation.tangentProject p (smul3 a g) =
        (a * (STriangulation.tangentProject p g).1,
         a * (STriangulation.tangentProject p g).2)) := by
  refine ⟨?_, ?_, ?_, ?_⟩
  · simp [STriangulation.gradientXYZ, List.getElem?_map, List.getElem?_range, hv]
  · simp [STriangulation.gradientXYZ, STriangulation.gradientLonLat,
      List.getElem?_map, List.getElem?_range, hv]
  · simp only [STriangulation.tangentProject, STriangulation.eastDir,
      STriangulation.lonRaw, dot3]
    ring
  · intro p g h a
    constructor
    · simp only [STriangulation.tangentProject, add3, dot3]
      exact Prod.ext (by ring) (by ring)
    · simp only [STriangulation.tangentProject, smul3, dot3]
      exact Prod.ext (by ring) (by ring)

/-- Witness for C6 at vertex 0 of the demo spherical triangulation. -/
theorem gradient_forms_related_witness :
    (demoSph.gradientXYZ [1, 2, 3])[0]? = some (demoSph.nodalGradXYZ [1, 2, 3] 0) ∧
    (demoSph.gradientLonLat [1, 2, 3])[0]? = ((demoSph.gradientXYZ [1, 2, 3])[0]?).map
      (STriangulation.tangentProject (demoSph.scoord 0)) ∧
    (STriangulation.tangentProject (demoSph.scoord 0) (demoSph.nodalGradXYZ [1, 2, 3] 0)).1 =
      (1 / (demoSph.scoord 0).cosLat) *
        dot3 (demoSph.nodalGradXYZ [1, 2, 3] 0) (STriangulation.lonRaw (demoSph.scoord 0)) ∧
    (∀ (p : SPoint) (g h : V3) (a : ℚ),
      STriangulation.tangentProject p (add3 g h) =
        ((STriangulation.tangentProject p g).1 + (STriangulation.tangentProject p h).1,
         (STriangulation.tangentProject p g).2 + (STriangulation.tangentProject p h).2) ∧
      STriangulation.tangentProject p (smul3 a g) =
        (a * (STriangulation.tangentProject p g).1,
         a * (STriangulation.tangentProject p g).2)) :=
  gradient_forms_related demoSph [1, 2, 3] 0 (by decide)

/-- A point has squared distance zero to itself. -/
theorem distSq_self (p : Pt) : distSq p p = 0 := by
  simp [distSq]

/-- Distinct points are at positive squared distance. -/
theorem distSq_pos {p q : Pt} (h : p ≠ q) : 0 < distSq p q := by
  have hc : p.1 ≠ q.1 ∨ p.2 ≠ q.2 := by
    by_contra hcon
    push_neg at hcon
    exact h (Prod.ext hcon.1 hcon.2)
  unfold distSq
  rcases hc with h1 | h2
  · have hp : 0 < (p.1 - q.1) * (p.1 - q.1) := mul_self_pos.mpr (sub_ne_zero.mpr h1)
    nlinarith [mul_self_nonneg (p.2 - q.2)]
  · have hp : 0 < (p.2 - q.2) * (p.2 - q.2) := mul_self_pos.mpr (sub_ne_zero.mpr h2)
    nlinarith [mul_self_nonneg (p.1 - q.1)]

/-- Nearest-vertex selection at the first vertex's own coordinate. -/
theorem nearestVal_fst {a b c : Pt} (za zb zc : ℚ) (hab : a ≠ b) (hac : a ≠ c) :
    nearestVal a b c a za zb zc = za := by
  unfold nearestVal
  rw [if_pos]
  constructor
  · rw [distSq_self]
    exact le_of_lt (distSq_pos hab)
  · rw [distSq_self]
    exact le_of_lt (distSq_pos hac)

/-- Nearest-vertex selection at the second vertex's own coordinate. -/
theorem nearestVal_snd {a b c : Pt} (za zb zc : ℚ) (hba : b ≠ a) (hbc : b ≠ c) :
    nearestVal a b c b za zb zc = zb := by
  unfold nearestVal
  have hda : 0 < distSq b a := distSq_pos hba
  have hdc : 0 < distSq b c := distSq_pos hbc
  rw [if_neg, if_pos]
  · rw [distSq_self]
    exact le_of_lt hdc
  · rw [distSq_self]
    intro hcon
    exact absurd hcon.1 (not_le.mpr hda)

/-- Nearest-vertex selection at the third vertex's own coordinate. -/
theorem nearestVal_thd {a b c : Pt} (za zb zc : ℚ) (hca : c ≠ a) (hcb : c ≠ b) :
    nearestVal a b c c za zb zc = zc := by
  unfold nearestVal
  have hda : 0 < distSq c a := distSq_pos hca
  have hdb : 0 < distSq c b := distSq_pos hcb
  rw [if_neg, if_neg]
  · rw [distSq_self]
    exact not_le.mpr hdb
  · rw [distSq_self]
    intro hcon
    exact absurd hcon.2 (not_le.mpr hda)

/-- Vertex coordinates of a duplicate-free point list are injective. -/
theorem coord_inj (tri : Triangulation) (hnd : tri.points.Nodup) {i j : Nat}
    (hi : i < tri.points.length) (hj : j < tri.points.length)
    (hij : i ≠ j) : tri.coord i ≠ tri.coord j := by
  intro hc
  unfold Triangulation.coord at hc
  rw [tri.points.getD_eq_getElem (0, 0) hi, tri.points.getD_eq_getElem (0, 0) hj] at hc
  exact hij (List.Nodup.getElem_inj_iff hnd |>.mp hc)

/-- C5: for every valid triangulation (duplicate-free points, in-range
pairwise-distinct simplex indices, vertex `v` covered by a triangle, no
T-junction at `v`), `interpolate` with order 0 queried at `v`'s exact
coordinate returns `v`'s own field value with status `INTERPOLATED`. -/
theorem order0_at_vertex_exact (tri : Triangulation) (z : List ℚ) (v : Nat)
    (hnd : tri.points.Nodup) (hv : v < tri.points.length)
    (hsim : ∀ s ∈ tri.simplices, s.1 < tri.points.length ∧
      s.2.1 < tri.points.length ∧ s.2.2 < tri.points.length ∧
      s.1 ≠ s.2.1 ∧ s.2.1 ≠ s.2.2 ∧ s.1 ≠ s.2.2)
    (hcov : ∃ s ∈ tri.simplices, tri.memTri s (tri.coord v) = true)
    (hnoT : ∀ s ∈ tri.simplices, tri.memTri s (tri.coord v) = true →
      s.1 = v ∨ s.2.1 = v ∨ s.2.2 = v) :
    interpolate tri [some (tri.coord v).1] [some (tri.coord v).2] 0 z =
      some ([z.getD v 0], [.INTERPOLATED]) := by
  have hfind : ∃ s, tri.containingTriangle (tri.coord v) = some s := by
    have hsome : (tri.simplices.find? (fun s => tri.memTri s (tri.coord v))).isSome := by
      rw [List.find?_isSome]
      obtain ⟨s, hs, hm⟩ := hcov
      exact ⟨s, hs, hm⟩
    exact Option.isSome_iff_exists.mp hsome
  obtain ⟨s, hs⟩ := hfind
  have hs' : tri.simplices.find? (fun t => tri.memTri t (tri.coord v)) = some s := hs
  have hmem : s ∈ tri.simplices := List.mem_of_find?_eq_some hs'
  have hmemtri : tri.memTri s (tri.coord v) = true := by
    have := List.find?_some hs'
    simpa using this
  obtain ⟨h1, h2, h3, h12, h23, h13⟩ := hsim s hmem
  have hval : evalInTriangle tri z (gradientsFor tri z) .nearest s (tri.coord v) =
      z.getD v 0 := by
    rcases hnoT s hmem hmemtri with hv1 | hv2 | hv3
    · subst hv1
      simp only [evalInTriangle]
      exact nearestVal_fst _ _ _ (coord_inj tri hnd h1 h2 h12) (coord_inj tri hnd h1 h3 h13)
    · subst hv2
      simp only [evalInTriangle]
      exact nearestVal_snd _ _ _ (coord_inj tri hnd h2 h1 (Ne.symm h12))
        (coord_inj tri hnd h2 h3 h23)
    · subst hv3
      simp only [evalInTriangle]
      exact nearestVal_thd _ _ _ (coord_inj tri hnd h3 h1 (Ne.symm h13))
        (coord_inj tri hnd h3 h2 (Ne.symm h23))
  have hne : tri.simplices.isEmpty = false := by
    cases hsim' : tri.simplices with
    | nil => rw [hsim'] at hmem; cases hmem
    | cons a l => rfl
  have hone : interpolateOne tri z (gradientsFor tri z) .nearest
      (some (tri.coord v).1, some (tri.coord v).2) = (z.getD v 0, .INTERPOLATED) := by
    simp only [interpolateOne]
    rw [if_neg (by simp [hne])]
    rw [hs]
    dsimp only
    rw [hval]
  simp [interpolate, decodeOrder, hone]

/-- Witness for C5 at vertex 0 of the demo triangulation. -/
theorem order0_at_vertex_exact_witness :
    interpolate demoTri [some (demoTri.coord 0).1] [some (demoTri.coord 0).2] 0
      [10, 20, 30, 40] = some ([[10, 20, 30, 40].getD 0 0], [.INTERPOLATED]) :=
  order0_at_vertex_exact demoTri [10, 20, 30, 40] 0
    (by decide) (by decide) (by decide)
    ⟨(0, 1, 2), by decide,
      by norm_num [demoTri, Triangulation.memTri, inTri, cross, Triangulation.coord]⟩
    (by
      intro s hs hm
      simp only [demoTri, List.mem_cons, List.not_mem_nil, or_false] at hs
      rcases hs with rfl | rfl
      · exact Or.inl rfl
      · exfalso
        revert hm
        norm_num [demoTri, Triangulation.memTri, inTri, cross, Triangulation.coord])

/-- The barycentric combination identity: the cross-product weights of a
point recombine the triangle's vertices into that point. -/
theorem cross_comb (a b c p : Pt) :
    cross b c p • a + cross c a p • b + cross a b p • c =
      (cross b c p + cross c a p + cross a b p) • p := by
  apply Prod.ext
  · simp only [Prod.fst_add, Prod.smul_fst, smul_eq_mul, cross]
    ring
  · simp only [Prod.snd_add, Prod.smul_snd, smul_eq_mul, cross]
    ring

/-- A point written as a nonnegative combination of three points with positive
total weight lies in their convex hull. -/
theorem convex_comb3_mem {a b c p : Pt} {wa wb wc : ℚ}
    (ha : 0 ≤ wa) (hb : 0 ≤ wb) (hc : 0 ≤ wc) (hpos : 0 < wa + wb + wc)
    (hcomb : wa • a + wb • b + wc • c = (wa + wb + wc) • p) :
    p ∈ convexHull ℚ ({a, b, c} : Set Pt) := by
  have hw0 : ∀ i ∈ (Finset.univ : Finset (Fin 3)), 0 ≤ (![wa, wb, wc]) i := by
    intro i _
    fin_cases i <;> simpa
  have hws : 0 < ∑ i ∈ (Finset.univ : Finset (Fin 3)), (![wa, wb, wc]) i := by
    simpa [Fin.sum_univ_three] using hpos
  have hz : ∀ i ∈ (Finset.univ : Finset (Fin 3)),
      (![a, b, c]) i ∈ ({a, b, c} : Set Pt) := by
    intro i _
    fin_cases i <;> simp
  have hmem := Finset.centerMass_mem_convexHull (Finset.univ : Finset (Fin 3)) hw0 hws hz
  have heq : (Finset.univ : Finset (Fin 3)).centerMass (![wa, wb, wc]) (![a, b, c]) = p := by
    rw [Finset.centerMass]
    simp only [Fin.sum_univ_three, Matrix.cons_val_zero, Matrix.cons_val_one,
      Matrix.head_cons, Matrix.cons_val_two, Matrix.tail_cons]
    rw [hcomb]
    exact inv_smul_smul₀ (ne_of_gt hpos) p
  rwa [heq] at hmem

/-- Closed-triangle containment puts the point in the convex hull of the
triangle's vertices. -/
theorem inTri_mem_convexHull {a b c p : Pt} (h : inTri a b c p = true) :
    p ∈ convexHull ℚ ({a, b, c} : Set Pt) := by
  simp only [inTri, Bool.and_eq_true, Bool.or_eq_true, decide_eq_true_eq] at h
  obtain ⟨hD, hcase⟩ := h
  have hsum : cross b c p + cross c a p + cross a b p = cross a b c := by
    simp only [cross]
    ring
  rcases hcase with ⟨⟨h1, h2⟩, h3⟩ | ⟨⟨h1, h2⟩, h3⟩
  · have hpos : 0 < cross b c p + cross c a p + cross a b p := by
      have hne0 : cross b c p + cross c a p + cross a b p ≠ 0 := by
        rw [hsum]; exact hD
      have hge : 0 ≤ cross b c p + cross c a p + cross a b p := by linarith
      exact hge.lt_of_ne (Ne.symm hne0)
    exact convex_comb3_mem h2 h3 h1 hpos (cross_comb a b c p)
  · have hcomb' : (-cross b c p) • a + (-cross c a p) • b + (-cross a b p) • c =
        (-cross b c p + -cross c a p + -cross a b p) • p := by
      apply Prod.ext
      · simp only [Prod.fst_add, Prod.smul_fst, smul_eq_mul, cross]
        ring
      · simp only [Prod.snd_add, Prod.smul_snd, smul_eq_mul, cross]
        ring
    have hpos : 0 < -cross b c p + -cross c a p + -cross a b p := by
      have hne0 : cross b c p + cross c a p + cross a b p ≠ 0 := by
        rw [hsum]; exact hD
      have hge : cross b c p + cross c a p + cross a b p ≤ 0 := by linarith
      have hlt : cross b c p + cross c a p + cross a b p < 0 := hge.lt_of_ne hne0
      linarith
    exact convex_comb3_mem (neg_nonneg.mpr h2) (neg_nonneg.mpr h3) (neg_nonneg.mpr h1)
      hpos hcomb'

/-- A valid vertex coordinate is one of the triangulation's points. -/
theorem coord_mem (tri : Triangulation) {i : Nat} (hi : i < tri.points.length) :
    tri.coord i ∈ tri.points := by
  unfold Triangulation.coord
  rw [tri.points.getD_eq_getElem (0, 0) hi]
  exact tri.points.getElem_mem hi

/-- C3: for every valid planar triangulation (non-empty triangle list, a
non-empty hull boundary, in-range simplex indices), a query point strictly
outside the triangulation's convex hull is classified `EXTRAPOLATED`, never
`INTERPOLATED` — and `interpolate`'s per-query status at that point is
`EXTRAPOLATED` for every field array, nodal-derivative array and order. -/
theorem outside_hull_extrapolated (tri : Triangulation) (p : Pt)
    (hne : tri.simplices ≠ []) (hhull : tri.hullEdges ≠ [])
    (hidx : ∀ s ∈ tri.simplices, s.1 < tri.points.length ∧
      s.2.1 < tri.points.length ∧ s.2.2 < tri.points.length)
    (hout : p ∉ convexHull ℚ {q : Pt | q ∈ tri.points}) :
    pointStatus tri (some p.1, some p.2) = .EXTRAPOLATED ∧
    pointStatus tri (some p.1, some p.2) ≠ .INTERPOLATED ∧
    ∀ (z : List ℚ) (grads : List ((ℚ × ℚ) × Bool)) (o : Order),
      (interpolateOne tri z grads o (some p.1, some p.2)).2 = .EXTRAPOLATED := by
  have hcont : tri.containingTriangle p = none := by
    cases hc : tri.containingTriangle p with
    | none => rfl
    | some s =>
      exfalso
      have hs' : tri.simplices.find? (fun t => tri.memTri t p) = some s := hc
      have hmem : s ∈ tri.simplices := List.mem_of_find?_eq_some hs'
      have hmemtri : tri.memTri s p = true := by simpa using List.find?_some hs'
      obtain ⟨h1, h2, h3⟩ := hidx s hmem
      have hin : p ∈ convexHull ℚ
          ({tri.coord s.1, tri.coord s.2.1, tri.coord s.2.2} : Set Pt) :=
        inTri_mem_convexHull (by simpa [Triangulation.memTri] using hmemtri)
      have hsub : ({tri.coord s.1, tri.coord s.2.1, tri.coord s.2.2} : Set Pt) ⊆
          {q : Pt | q ∈ tri.points} := by
        intro q hq
        simp only [Set.mem_insert_iff, Set.mem_singleton_iff] at hq
        rcases hq with rfl | rfl | rfl
        · exact coord_mem tri h1
        · exact coord_mem tri h2
        · exact coord_mem tri h3
      exact hout (convexHull_mono hsub hin)
  have hfe : tri.simplices.isEmpty = false := by
    cases hsim : tri.simplices with
    | nil => exact absurd hsim hne
    | cons a l => rfl
  have hnear : ∃ e, tri.nearestBoundaryEdge p = some e := by
    unfold Triangulation.nearestBoundaryEdge
    cases hh : tri.hullEdges with
    | nil => exact absurd hh hhull
    | cons e es => exact ⟨_, rfl⟩
  obtain ⟨e, he⟩ := hnear
  have hstat : pointStatus tri (some p.1, some p.2) = .EXTRAPOLATED := by
    simp only [pointStatus]
    rw [if_neg (by simp [hfe])]
    rw [hcont]
    dsimp only
    rw [he]
  refine ⟨hstat, by rw [hstat]; intro hcon; exact Status.noConfusion hcon, ?_⟩
  intro z grads o
  rw [interpolateOne_status, hstat]

/-- Witness for C3: the point `(5, 5)` lies strictly outside the demo
triangulation's convex hull (which sits inside the unit square) and is
classified `EXTRAPOLATED`. -/
theorem outside_hull_extrapolated_witness :
    pointStatus demoTri (some ((5 : ℚ), (5 : ℚ)).1, some ((5 : ℚ), (5 : ℚ)).2) =
      .EXTRAPOLATED ∧
    pointStatus demoTri (some ((5 : ℚ), (5 : ℚ)).1, some ((5 : ℚ), (5 : ℚ)).2) ≠
      .INTERPOLATED ∧
    ∀ (z : List ℚ) (grads : List ((ℚ × ℚ) × Bool)) (o : Order),
      (interpolateOne demoTri z grads o
        (some ((5 : ℚ), (5 : ℚ)).1, some ((5 : ℚ), (5 : ℚ)).2)).2 = .EXTRAPOLATED :=
  outside_hull_extrapolated demoTri ((5 : ℚ), (5 : ℚ))
    (by decide) (by decide) (by decide)
    (by
      intro hmem
      have hsub : {q : Pt | q ∈ demoTri.points} ⊆ {q : Pt | q.1 ≤ 1} := by
        intro q hq
        simp only [demoTri, List.mem_cons, List.not_mem_nil, or_false,
          Set.mem_setOf_eq] at hq ⊢
        rcases hq with rfl | rfl | rfl | rfl <;> norm_num
      have hconv : Convex ℚ {q : Pt | q.1 ≤ 1} := by
        intro x hx y hy sa ta hsa hta hst
        simp only [Set.mem_setOf_eq] at hx hy ⊢
        have hcomp : (sa • x + ta • y).1 = sa * x.1 + ta * y.1 := rfl
        rw [hcomp]
        nlinarith
      have hin := convexHull_min hsub hconv hmem
      simp only [Set.mem_setOf_eq] at hin
      norm_num at hin)

end Viep
